import Mathlib

/-!
Verification of the boundary adapter in `src/wasm/openssl_rand_wrapper.c`
(repository `open-ssl-web`).

The adapter exposes cryptographic primitives (random bytes, PBKDF2, SHA-2
digests, AES-256-GCM) across a flat shared linear memory: every argument is
an integer offset or length into that memory.  We embed the adapter
shallowly:

* the shared linear memory is a `List Nat` of bytes; a dereference of an
  out-of-range region is undefined behaviour and is modelled as `Option.none`;
* the trusted primitive library (OpenSSL) is not part of the repository, so
  its operations are modelled from the specification: fallible calls are
  parameterised by an outcome oracle, the AES-GCM cipher by an abstract
  keystream-and-tag structure `GCMPrim`, and PBKDF2/SHA-2 by executable
  reference implementations of the standards the specification names.
-/

/-- A read of `n` bytes at offset `off` from the linear memory `mem`.
Returns `none` (undefined behaviour) when the region `[off, off+n)` is not
inside the memory. -/
def memRead (mem : List Nat) (off n : Nat) : Option (List Nat) :=
  if off + n ≤ mem.length then some ((mem.drop off).take n) else none

/-- A write of the bytes `bs` at offset `off` into the linear memory `mem`.
Returns `none` (undefined behaviour) when the written region is not inside
the memory. -/
def memWrite (mem : List Nat) (off : Nat) (bs : List Nat) : Option (List Nat) :=
  if off + bs.length ≤ mem.length then
    some (mem.take off ++ bs ++ mem.drop (off + bs.length))
  else none

/-- Two regions `[a, a+la)` and `[b, b+lb)` of the linear memory are disjoint. -/
def Disj (a la b lb : Nat) : Prop := a + la ≤ b ∨ b + lb ≤ a

/-- Modelled from the spec: the trusted AEAD primitive (OpenSSL's AES-256-GCM
via the EVP interface) is external to the repository.  The adapter only relies
on it being a stream cipher with an authentication tag: `ks key iv n` is the
`n`-byte keystream for a key/IV pair (ciphertext is plaintext XOR keystream,
so `EVP_EncryptUpdate` outputs exactly as many bytes as it consumes), and
`tagFn key iv aad ct` is the 16-byte authentication tag over the associated
data and the ciphertext. -/
structure GCMPrim where
  ks : List Nat → List Nat → Nat → List Nat
  tagFn : List Nat → List Nat → List Nat → List Nat → List Nat
  ks_len : ∀ key iv n, (ks key iv n).length = n
  tagFn_len : ∀ key iv aad ct, (tagFn key iv aad ct).length = 16

/-- Modelled from the spec: outcome oracle for the fallible EVP library calls
made by one adapter call (context allocation, the two init calls, the
IV-length ctrl, the AAD update, the data update, finalisation, and the
get/set-tag ctrl).  `true` means the library call succeeds; tag verification
during decryption finalisation is modelled separately. -/
structure EVPOutcome where
  ctxNew : Bool
  init1 : Bool
  setIvLen : Bool
  init2 : Bool
  aadUpd : Bool
  upd : Bool
  fin : Bool
  tagCtrl : Bool

/-- The all-successful EVP outcome: every library call succeeds. -/
def evpOk : EVPOutcome := ⟨true, true, true, true, true, true, true, true⟩

/-- Embedding of `aes_256_gcm_encrypt` from `src/wasm/openssl_rand_wrapper.c`.
Arguments are byte offsets and lengths into the linear memory `mem`, exactly
as in the source.  The result is `none` when the call dereferences memory out
of range (undefined behaviour in the source), otherwise
`some (ret, mem', frees)` where `ret` is the returned `int`, `mem'` the memory
after the call and `frees` the number of `EVP_CIPHER_CTX_free` calls executed
on that path.  The source checks each EVP call in order and returns `-1` on
the first failure (freeing the context first); on success it returns the
accumulated ciphertext length, which for this stream mode is
`plaintext_len + 0`. -/
def aes_256_gcm_encrypt (P : GCMPrim) (o : EVPOutcome) (mem : List Nat)
    (key_ptr iv_ptr iv_len aad_ptr aad_len plaintext_ptr plaintext_len
     ciphertext_ptr tag_ptr : Nat) : Option (Int × List Nat × Nat) :=
  if o.ctxNew = false then some (-1, mem, 0)
  else if o.init1 = false then some (-1, mem, 1)
  else if o.setIvLen = false then some (-1, mem, 1)
  else
    (memRead mem key_ptr 32).bind fun key =>
    (memRead mem iv_ptr iv_len).bind fun iv =>
    if o.init2 = false then some (-1, mem, 1)
    else
      (if aad_ptr ≠ 0 ∧ 0 < aad_len then memRead mem aad_ptr aad_len
       else some []).bind fun aad =>
      if aad_ptr ≠ 0 ∧ 0 < aad_len ∧ o.aadUpd = false then some (-1, mem, 1)
      else
        (memRead mem plaintext_ptr plaintext_len).bind fun plaintext =>
        if o.upd = false then some (-1, mem, 1)
        else
          (memWrite mem ciphertext_ptr
            (List.zipWith Nat.xor plaintext (P.ks key iv plaintext_len))).bind fun mem1 =>
          if o.fin = false then some (-1, mem1, 1)
          else if o.tagCtrl = false then some (-1, mem1, 1)
          else
            (memWrite mem1 tag_ptr (P.tagFn key iv aad
              (List.zipWith Nat.xor plaintext (P.ks key iv plaintext_len)))).bind fun mem2 =>
            some ((plaintext_len : Int), mem2, 1)

/-- Embedding of `aes_256_gcm_decrypt` from `src/wasm/openssl_rand_wrapper.c`,
with the same conventions as the encryption embedding.  The source writes the
candidate plaintext during `EVP_DecryptUpdate`, then installs the expected tag
and finalises; `EVP_DecryptFinal_ex` fails exactly when tag verification
fails (or the library reports another finalisation error, `o.fin = false`). -/
def aes_256_gcm_decrypt (P : GCMPrim) (o : EVPOutcome) (mem : List Nat)
    (key_ptr iv_ptr iv_len aad_ptr aad_len ciphertext_ptr ciphertext_len
     tag_ptr plaintext_ptr : Nat) : Option (Int × List Nat × Nat) :=
  if o.ctxNew = false then some (-1, mem, 0)
  else if o.init1 = false then some (-1, mem, 1)
  else if o.setIvLen = false then some (-1, mem, 1)
  else
    (memRead mem key_ptr 32).bind fun key =>
    (memRead mem iv_ptr iv_len).bind fun iv =>
    if o.init2 = false then some (-1, mem, 1)
    else
      (if aad_ptr ≠ 0 ∧ 0 < aad_len then memRead mem aad_ptr aad_len
       else some []).bind fun aad =>
      if aad_ptr ≠ 0 ∧ 0 < aad_len ∧ o.aadUpd = false then some (-1, mem, 1)
      else
        (memRead mem ciphertext_ptr ciphertext_len).bind fun ct =>
        if o.upd = false then some (-1, mem, 1)
        else
          (memWrite mem plaintext_ptr
            (List.zipWith Nat.xor ct (P.ks key iv ciphertext_len))).bind fun mem1 =>
          (memRead mem1 tag_ptr 16).bind fun tag =>
          if o.tagCtrl = false then some (-1, mem1, 1)
          else if o.fin = false ∨ tag ≠ P.tagFn key iv aad ct then some (-1, mem1, 1)
          else some ((ciphertext_len : Int), mem1, 1)

/-- Embedding of `openssl_rand_bytes` from `src/wasm/openssl_rand_wrapper.c`.
Modelled from the spec: `RAND_bytes` is external; per the spec it fills the
buffer and returns `1` on success and returns `0` on failure without an
unsignalled partial fill, so it is modelled by a success flag `randOk` and a
byte source `rnd`.  The source passes the unchecked pointer straight to
`RAND_bytes`, so an out-of-range region is undefined behaviour (`none`). -/
def openssl_rand_bytes (randOk : Bool) (rnd : Nat → Nat) (mem : List Nat)
    (ptr len : Nat) : Option (Int × List Nat) :=
  if ptr + len ≤ mem.length then
    if randOk then (memWrite mem ptr ((List.range len).map rnd)).map fun mem' => (1, mem')
    else some (0, mem)
  else none

/-- Truncation to a `w`-bit machine word. -/
def wmask (w x : Nat) : Nat := x % 2 ^ w

/-- Right rotation of a `w`-bit word by `r` places. -/
def rotr (w r x : Nat) : Nat := (x >>> r) ||| wmask w (x <<< (w - r))

/-- Bitwise complement of a `w`-bit word. -/
def wnot (w x : Nat) : Nat := x ^^^ (2 ^ w - 1)

/-- Big-endian interpretation of a byte list as a machine word. -/
def bytesToWordBE (bs : List Nat) : Nat := bs.foldl (fun acc b => acc * 256 + b) 0

/-- Big-endian encoding of a word into exactly `k` bytes. -/
def wordToBytesBE (k x : Nat) : List Nat :=
  (List.range k).map fun i => (x >>> (8 * (k - 1 - i))) % 256

/-- Splits a list into consecutive chunks of `n` elements (fuelled recursion). -/
def chunksGo (n : Nat) : Nat → List Nat → List (List Nat)
  | 0, _ => []
  | _ + 1, [] => []
  | fuel + 1, l => l.take n :: chunksGo n fuel (l.drop n)

/-- Splits a list into consecutive chunks of `n` elements. -/
def chunksBytes (n : Nat) (l : List Nat) : List (List Nat) := chunksGo n l.length l

/-- Modelled from the spec: the SHA-2 hash family used by the trusted
primitive library (OpenSSL's `SHA256`/`SHA512` and the hashes underlying
`PKCS5_PBKDF2_HMAC`) is external to the repository; it is given here as an
executable reference implementation of FIPS 180-4, parameterised by word
size, round constants and the two sigma function pairs. -/
structure SHA2 where
  w : Nat
  wordBytes : Nat
  blockBytes : Nat
  lenBytes : Nat
  K : List Nat
  H0 : List Nat
  bigS0 : Nat → Nat
  bigS1 : Nat → Nat
  smallS0 : Nat → Nat
  smallS1 : Nat → Nat

/-- FIPS 180-4 message padding: a `128` byte, zeros, and the big-endian
bit length, reaching a multiple of the block size. -/
def shaPad (S : SHA2) (msg : List Nat) : List Nat :=
  msg ++ 128 ::
    (List.replicate ((S.blockBytes - (msg.length + 1 + S.lenBytes) % S.blockBytes) % S.blockBytes) 0
      ++ wordToBytesBE S.lenBytes (8 * msg.length))

/-- Message-schedule extension: appends `n` further schedule words. -/
def shaExtend (S : SHA2) : Nat → List Nat → List Nat
  | 0, ws => ws
  | n + 1, ws =>
      shaExtend S n (ws ++ [wmask S.w (S.smallS1 (ws.getD (ws.length - 2) 0)
        + ws.getD (ws.length - 7) 0 + S.smallS0 (ws.getD (ws.length - 15) 0)
        + ws.getD (ws.length - 16) 0)])

/-- One compression round on the state `[a, b, c, d, e, f, g, h]` with a
round-constant/schedule-word pair. -/
def shaRound (S : SHA2) (st : List Nat) (kw : Nat × Nat) : List Nat :=
  match st with
  | [a, b, c, d, e, f, g, h] =>
      let t1 := wmask S.w (h + S.bigS1 e + ((e &&& f) ^^^ (wnot S.w e &&& g)) + kw.1 + kw.2)
      let t2 := wmask S.w (S.bigS0 a + ((a &&& b) ^^^ (a &&& c) ^^^ (b &&& c)))
      [wmask S.w (t1 + t2), a, b, c, wmask S.w (d + t1), e, f, g]
  | st => st

/-- Compression of one message block into the hash state. -/
def shaCompress (S : SHA2) (st : List Nat) (block : List Nat) : List Nat :=
  let ws := shaExtend S (S.K.length - 16) ((chunksBytes S.wordBytes block).map bytesToWordBE)
  let st1 := (S.K.zip ws).foldl (shaRound S) st
  List.zipWith (fun x y => wmask S.w (x + y)) st st1

/-- Folds the compression function over the blocks of the padded message. -/
def shaBlocks (S : SHA2) : Nat → List Nat → List Nat → List Nat
  | 0, st, _ => st
  | _ + 1, st, [] => st
  | fuel + 1, st, l => shaBlocks S fuel (shaCompress S st (l.take S.blockBytes)) (l.drop S.blockBytes)

/-- The SHA-2 digest of a byte message. -/
def shaHash (S : SHA2) (msg : List Nat) : List Nat :=
  (shaBlocks S (shaPad S msg).length S.H0 (shaPad S msg)).flatMap (wordToBytesBE S.wordBytes)

/-- SHA-256 parameters (FIPS 180-4). -/
def sha256P : SHA2 where
  w := 32
  wordBytes := 4
  blockBytes := 64
  lenBytes := 8
  K := [
    1116352408, 1899447441, 3049323471, 3921009573, 961987163, 1508970993,
    2453635748, 2870763221, 3624381080, 310598401, 607225278, 1426881987,
    1925078388, 2162078206, 2614888103, 3248222580, 3835390401, 4022224774,
    264347078, 604807628, 770255983, 1249150122, 1555081692, 1996064986,
    2554220882, 2821834349, 2952996808, 3210313671, 3336571891, 3584528711,
    113926993, 338241895, 666307205, 773529912, 1294757372, 1396182291,
    1695183700, 1986661051, 2177026350, 2456956037, 2730485921, 2820302411,
    3259730800, 3345764771, 3516065817, 3600352804, 4094571909, 275423344,
    430227734, 506948616, 659060556, 883997877, 958139571, 1322822218,
    1537002063, 1747873779, 1955562222, 2024104815, 2227730452, 2361852424,
    2428436474, 2756734187, 3204031479, 3329325298]
  H0 := [1779033703, 3144134277, 1013904242, 2773480762, 1359893119, 2600822924,
    528734635, 1541459225]
  bigS0 := fun x => rotr 32 2 x ^^^ rotr 32 13 x ^^^ rotr 32 22 x
  bigS1 := fun x => rotr 32 6 x ^^^ rotr 32 11 x ^^^ rotr 32 25 x
  smallS0 := fun x => rotr 32 7 x ^^^ rotr 32 18 x ^^^ (x >>> 3)
  smallS1 := fun x => rotr 32 17 x ^^^ rotr 32 19 x ^^^ (x >>> 10)

/-- SHA-512 parameters (FIPS 180-4). -/
def sha512P : SHA2 where
  w := 64
  wordBytes := 8
  blockBytes := 128
  lenBytes := 16
  K := [
    4794697086780616226, 8158064640168781261, 13096744586834688815, 16840607885511220156,
    4131703408338449720, 6480981068601479193, 10538285296894168987, 12329834152419229976,
    15566598209576043074, 1334009975649890238, 2608012711638119052, 6128411473006802146,
    8268148722764581231, 9286055187155687089, 11230858885718282805, 13951009754708518548,
    16472876342353939154, 17275323862435702243, 1135362057144423861, 2597628984639134821,
    3308224258029322869, 5365058923640841347, 6679025012923562964, 8573033837759648693,
    10970295158949994411, 12119686244451234320, 12683024718118986047, 13788192230050041572,
    14330467153632333762, 15395433587784984357, 489312712824947311, 1452737877330783856,
    2861767655752347644, 3322285676063803686, 5560940570517711597, 5996557281743188959,
    7280758554555802590, 8532644243296465576, 9350256976987008742, 10552545826968843579,
    11727347734174303076, 12113106623233404929, 14000437183269869457, 14369950271660146224,
    15101387698204529176, 15463397548674623760, 17586052441742319658, 1182934255886127544,
    1847814050463011016, 2177327727835720531, 2830643537854262169, 3796741975233480872,
    4115178125766777443, 5681478168544905931, 6601373596472566643, 7507060721942968483,
    8399075790359081724, 8693463985226723168, 9568029438360202098, 10144078919501101548,
    10430055236837252648, 11840083180663258601, 13761210420658862357, 14299343276471374635,
    14566680578165727644, 15097957966210449927, 16922976911328602910, 17689382322260857208,
    500013540394364858, 748580250866718886, 1242879168328830382, 1977374033974150939,
    2944078676154940804, 3659926193048069267, 4368137639120453308, 4836135668995329356,
    5532061633213252278, 6448918945643986474, 6902733635092675308, 7801388544844847127]
  H0 := [7640891576956012808, 13503953896175478587, 4354685564936845355, 11912009170470909681,
    5840696475078001361, 11170449401992604703, 2270897969802886507, 6620516959819538809]
  bigS0 := fun x => rotr 64 28 x ^^^ rotr 64 34 x ^^^ rotr 64 39 x
  bigS1 := fun x => rotr 64 14 x ^^^ rotr 64 18 x ^^^ rotr 64 41 x
  smallS0 := fun x => rotr 64 1 x ^^^ rotr 64 8 x ^^^ (x >>> 7)
  smallS1 := fun x => rotr 64 19 x ^^^ rotr 64 61 x ^^^ (x >>> 6)

/-- The SHA-256 digest (32 bytes) of a byte message. -/
def sha256 (msg : List Nat) : List Nat := shaHash sha256P msg

/-- The SHA-512 digest (64 bytes) of a byte message. -/
def sha512 (msg : List Nat) : List Nat := shaHash sha512P msg

/-- Modelled from the spec: HMAC (RFC 2104) over a hash with the given block
size, as used inside OpenSSL's `PKCS5_PBKDF2_HMAC`.  A key longer than the
block size is first replaced by its hash. -/
def hmac (hash : List Nat → List Nat) (blockBytes : Nat) (key msg : List Nat) : List Nat :=
  let k0 := if blockBytes < key.length then hash key else key
  let kp := k0 ++ List.replicate (blockBytes - k0.length) 0
  hash ((kp.map fun b => b ^^^ 92) ++ hash ((kp.map fun b => b ^^^ 54) ++ msg))

/-- Iterates the PRF `c` further times, XOR-accumulating into `acc`. -/
def pbkdf2Go (prf : List Nat → List Nat) : Nat → List Nat → List Nat → List Nat
  | 0, _, acc => acc
  | c + 1, u, acc =>
      let u1 := prf u
      pbkdf2Go prf c u1 (List.zipWith Nat.xor acc u1)

/-- The PBKDF2 block function `F(P, S, c, i)` (RFC 8018), with the password
already fixed inside `prf`. -/
def pbkdf2F (prf : List Nat → List Nat) (salt : List Nat) (c i : Nat) : List Nat :=
  let u1 := prf (salt ++ wordToBytesBE 4 i)
  pbkdf2Go prf (c - 1) u1 u1

/-- Modelled from the spec: PBKDF2 (RFC 8018), the key-derivation primitive
behind OpenSSL's `PKCS5_PBKDF2_HMAC`, which is external to the repository. -/
def pbkdf2 (prf : List Nat → List Nat) (hLen : Nat) (salt : List Nat) (c dkLen : Nat) : List Nat :=
  (((List.range ((dkLen + hLen - 1) / hLen)).map fun i => pbkdf2F prf salt c (i + 1)).flatten).take dkLen

/-- PBKDF2-HMAC-SHA256 key derivation. -/
def pbkdf2Sha256 (pass salt : List Nat) (c dkLen : Nat) : List Nat :=
  pbkdf2 (hmac sha256 64 pass) 32 salt c dkLen

/-- PBKDF2-HMAC-SHA512 key derivation. -/
def pbkdf2Sha512 (pass salt : List Nat) (c dkLen : Nat) : List Nat :=
  pbkdf2 (hmac sha512 128 pass) 64 salt c dkLen

/-- Embedding of `pbkdf2_hmac_sha256` from `src/wasm/openssl_rand_wrapper.c`:
the wrapper rejects non-positive `out_len` or `iterations` with status `0`
before calling `PKCS5_PBKDF2_HMAC`, and otherwise forwards the primitive's
status.  `primOk` models whether the external primitive succeeds; the result
is `(status, primitive invoked, bytes written to the output view)`. -/
def pbkdf2_hmac_sha256 (primOk : Bool) (pass salt : List Nat)
    (iterations out_len : Int) : Int × Bool × Option (List Nat) :=
  if out_len ≤ 0 ∨ iterations ≤ 0 then (0, false, none)
  else if primOk then (1, true, some (pbkdf2Sha256 pass salt iterations.toNat out_len.toNat))
  else (0, true, none)

/-- Embedding of `pbkdf2_hmac_sha512` from `src/wasm/openssl_rand_wrapper.c`,
identical to the SHA-256 variant except for the underlying hash. -/
def pbkdf2_hmac_sha512 (primOk : Bool) (pass salt : List Nat)
    (iterations out_len : Int) : Int × Bool × Option (List Nat) :=
  if out_len ≤ 0 ∨ iterations ≤ 0 then (0, false, none)
  else if primOk then (1, true, some (pbkdf2Sha512 pass salt iterations.toNat out_len.toNat))
  else (0, true, none)

/-- Embedding of `sha256_digest` from `src/wasm/openssl_rand_wrapper.c`:
OpenSSL's one-shot `SHA256` writes the 32-byte digest into the output view
and returns the (non-null) output pointer, so the wrapper returns status `1`
together with the bytes written. -/
def sha256_digest (data : List Nat) : Int × List Nat := (1, sha256 data)

/-- Embedding of `sha512_digest` from `src/wasm/openssl_rand_wrapper.c`:
as `sha256_digest` with the 64-byte SHA-512 digest. -/
def sha512_digest (data : List Nat) : Int × List Nat := (1, sha512 data)

/-- XOR-fold of a byte list, used by the concrete witness instantiation of
the abstract AEAD primitive. -/
def xorFold (l : List Nat) : Nat := l.foldr Nat.xor 0

/-- A concrete executable instance of the abstract AEAD primitive, used to
instantiate the universally quantified theorems at concrete inputs: the
keystream is all-zero and the tag XOR-folds the associated data and the
ciphertext into the first tag byte. -/
def toyGCM : GCMPrim where
  ks := fun _ _ n => List.replicate n 0
  tagFn := fun _ _ aad ct => (xorFold aad ^^^ xorFold ct) :: List.replicate 15 0
  ks_len := fun _ _ n => List.length_replicate n 0
  tagFn_len := fun _ _ _ _ => by simp

/-- Flips bit `b` (0-based) of the byte at index `i`. -/
def flipBit (l : List Nat) (i b : Nat) : List Nat := l.set i (l.getD i 0 ^^^ 2 ^ b)

/-- An AEAD primitive is single-bit-flip sensitive when flipping one bit of
the associated data or of the ciphertext always changes the tag. -/
def FlipSensitive (P : GCMPrim) : Prop :=
  ∀ key iv aad ct i b, b < 8 →
    (i < aad.length → P.tagFn key iv (flipBit aad i b) ct ≠ P.tagFn key iv aad ct) ∧
    (i < ct.length → P.tagFn key iv aad (flipBit ct i b) ≠ P.tagFn key iv aad ct)

/-- Concrete memory layout used by the witness instantiations: a 32-byte zero
key at offset 0, a 1-byte IV `[7]` at 32, 1-byte associated data `[5]` at 33,
the 2-byte plaintext `[10, 20]` at 34, ciphertext space at 36, tag space at
38 and a 2-byte plaintext-output region at 54. -/
def memc : List Nat :=
  List.replicate 32 0 ++ [7, 5, 10, 20, 0, 0] ++ List.replicate 16 0 ++ [0, 0]

/-- The memory produced by a successful encryption over `memc`. -/
def mem2c : List Nat :=
  List.replicate 32 0 ++ [7, 5, 10, 20, 10, 20, 27] ++ List.replicate 15 0 ++ [0, 0]

/-- Memory layout for the tag-mismatch witness: zero key at 0, empty IV and
associated data, 2-byte ciphertext at 32, an all-ones (hence wrong) tag at 34
and the plaintext output region at 50. -/
def mem10c : List Nat :=
  List.replicate 32 0 ++ [0, 0] ++ List.replicate 16 1 ++ [0, 0]

theorem memRead_length {mem l : List Nat} {off n : Nat}
    (h : memRead mem off n = some l) : l.length = n := by
  unfold memRead at h
  split at h
  · cases h
    simp only [List.length_take, List.length_drop]
    omega
  · cases h

theorem memRead_bound {mem l : List Nat} {off n : Nat}
    (h : memRead mem off n = some l) : off + n ≤ mem.length := by
  unfold memRead at h
  split at h
  · assumption
  · cases h

theorem memWrite_bound {mem mem' bs : List Nat} {off : Nat}
    (h : memWrite mem off bs = some mem') : off + bs.length ≤ mem.length := by
  unfold memWrite at h
  split at h
  · assumption
  · cases h

theorem memWrite_length {mem mem' bs : List Nat} {off : Nat}
    (h : memWrite mem off bs = some mem') : mem'.length = mem.length := by
  have hb := memWrite_bound h
  unfold memWrite at h
  rw [if_pos hb] at h
  cases h
  simp only [List.length_append, List.length_take, List.length_drop]
  omega

theorem memWrite_eq {mem mem' bs : List Nat} {off : Nat}
    (h : memWrite mem off bs = some mem') :
    mem' = mem.take off ++ bs ++ mem.drop (off + bs.length) := by
  have hb := memWrite_bound h
  unfold memWrite at h
  rw [if_pos hb] at h
  exact (Option.some_inj.mp h).symm

/-- Reading back a freshly written region yields exactly the written bytes. -/
theorem memRead_memWrite_self {mem mem' bs : List Nat} {off : Nat}
    (h : memWrite mem off bs = some mem') :
    memRead mem' off bs.length = some bs := by
  have hb := memWrite_bound h
  have hlen := memWrite_length h
  have heq := memWrite_eq h
  have hoff : (mem.take off).length = off := by
    simp only [List.length_take]; omega
  unfold memRead
  rw [hlen, if_pos (by omega)]
  congr 1
  rw [heq, List.append_assoc, List.drop_left' hoff, List.take_left' rfl]

/-- A write leaves the bytes of any disjoint region untouched. -/
theorem memRead_memWrite_disj {mem mem' bs : List Nat} {woff roff n : Nat}
    (h : memWrite mem woff bs = some mem') (hd : Disj roff n woff bs.length) :
    memRead mem' roff n = memRead mem roff n := by
  have hb := memWrite_bound h
  have hlen := memWrite_length h
  have heq := memWrite_eq h
  have hoff : (mem.take woff).length = woff := by
    simp only [List.length_take]; omega
  unfold memRead
  rw [hlen]
  split
  · congr 1
    rcases hd with hL | hR
    · have h0 : roff - (mem.take woff).length = 0 := by omega
      rw [heq, List.append_assoc, List.drop_append_eq_append_drop, h0, List.drop_zero,
        List.take_append_of_le_length (by rw [List.length_drop, hoff]; omega),
        List.drop_take, List.take_take]
      congr 1
      omega
    · rw [heq, List.drop_append_eq_append_drop,
        List.drop_of_length_le (by simp only [List.length_append, hoff]; omega),
        List.nil_append, List.drop_drop]
      have harg : woff + bs.length + (roff - (mem.take woff ++ bs).length) = roff := by
        simp only [List.length_append, hoff]; omega
      rw [harg]
  · rfl

theorem wordToBytesBE_length (k x : Nat) : (wordToBytesBE k x).length = k := by
  simp [wordToBytesBE]

theorem shaRound_length (S : SHA2) (st : List Nat) (kw : Nat × Nat) :
    (shaRound S st kw).length = st.length := by
  unfold shaRound
  split
  · simp_all
  · rfl

theorem foldl_shaRound_length (S : SHA2) (l : List (Nat × Nat)) (st : List Nat) :
    (l.foldl (shaRound S) st).length = st.length := by
  induction l generalizing st with
  | nil => rfl
  | cons x xs ih => rw [List.foldl_cons, ih, shaRound_length]

theorem shaCompress_length (S : SHA2) (st block : List Nat) :
    (shaCompress S st block).length = st.length := by
  unfold shaCompress
  simp [foldl_shaRound_length]

theorem shaBlocks_length (S : SHA2) (fuel : Nat) (st l : List Nat) :
    (shaBlocks S fuel st l).length = st.length := by
  induction fuel generalizing st l with
  | zero => rfl
  | succ n ih =>
      cases l with
      | nil => rfl
      | cons x xs =>
          rw [shaBlocks, ih, shaCompress_length]
          simp

theorem flatMap_wordToBytesBE_length (k : Nat) (l : List Nat) :
    (l.flatMap (wordToBytesBE k)).length = l.length * k := by
  induction l with
  | nil => simp
  | cons x xs ih =>
      simp only [List.flatMap_cons, List.length_append, wordToBytesBE_length, ih,
        List.length_cons]
      ring

theorem sha256_length (msg : List Nat) : (sha256 msg).length = 32 := by
  unfold sha256 shaHash
  rw [flatMap_wordToBytesBE_length, shaBlocks_length]
  rfl

theorem sha512_length (msg : List Nat) : (sha512 msg).length = 64 := by
  unfold sha512 shaHash
  rw [flatMap_wordToBytesBE_length, shaBlocks_length]
  rfl

set_option maxRecDepth 100000 in
/-- Claim C7: `Digest` writes the hash of the input into the destination view
with status 1 — exactly 32 bytes for the 256-bit variant and 64 bytes for the
512-bit variant — and the empty input yields the standard SHA-256 and SHA-512
empty-string digests. -/
theorem c7_digest_vectors :
    (∀ data, sha256_digest data = (1, sha256 data) ∧ (sha256 data).length = 32) ∧
    (∀ data, sha512_digest data = (1, sha512 data) ∧ (sha512 data).length = 64) ∧
    (sha256_digest []).2 =
      [227, 176, 196, 66, 152, 252, 28, 20, 154, 251, 244, 200,
       153, 111, 185, 36, 39, 174, 65, 228, 100, 155, 147, 76,
       164, 149, 153, 27, 120, 82, 184, 85] ∧
    (sha512_digest []).2 =
      [207, 131, 225, 53, 126, 239, 184, 189, 241, 84, 40, 80,
       214, 109, 128, 7, 214, 32, 228, 5, 11, 87, 21, 220,
       131, 244, 169, 33, 211, 108, 233, 206, 71, 208, 209, 60,
       93, 133, 242, 176, 255, 131, 24, 210, 135, 126, 236, 47,
       99, 185, 49, 189, 71, 65, 122, 129, 165, 56, 50, 122,
       249, 39, 218, 62] :=
  ⟨fun data => ⟨rfl, sha256_length data⟩,
   fun data => ⟨rfl, sha512_length data⟩,
   by decide, by decide⟩

/-- Claim C4: both PBKDF2 wrappers reject `iterations ≤ 0` or `out_len ≤ 0`
with status 0 before invoking the primitive (the invoked flag is `false`),
and with positive parameters the status is 1 exactly when the primitive
succeeds. -/
theorem c4_pbkdf2_guard (primOk : Bool) (pass salt : List Nat) (iterations out_len : Int) :
    ((iterations ≤ 0 ∨ out_len ≤ 0) →
      pbkdf2_hmac_sha256 primOk pass salt iterations out_len = (0, false, none) ∧
      pbkdf2_hmac_sha512 primOk pass salt iterations out_len = (0, false, none)) ∧
    (0 < iterations → 0 < out_len →
      ((pbkdf2_hmac_sha256 primOk pass salt iterations out_len).2.1 = true ∧
        ((pbkdf2_hmac_sha256 primOk pass salt iterations out_len).1 = 1 ↔ primOk = true)) ∧
      ((pbkdf2_hmac_sha512 primOk pass salt iterations out_len).2.1 = true ∧
        ((pbkdf2_hmac_sha512 primOk pass salt iterations out_len).1 = 1 ↔ primOk = true))) := by
  unfold pbkdf2_hmac_sha256 pbkdf2_hmac_sha512
  constructor
  · intro h
    rw [if_pos (by omega), if_pos (by omega)]
    exact ⟨rfl, rfl⟩
  · intro hi ho
    have hno : ¬(out_len ≤ 0 ∨ iterations ≤ 0) := by omega
    rw [if_neg hno, if_neg hno]
    cases primOk <;> simp

/-- Witness for C4 at concrete inputs. -/
theorem c4_pbkdf2_guard_witness :
    pbkdf2_hmac_sha256 true [] [] (-3) 4 = (0, false, none) ∧
    (pbkdf2_hmac_sha256 true [5] [6] 1 4).1 = 1 := by
  refine ⟨((c4_pbkdf2_guard true [] [] (-3) 4).1 (Or.inl (by decide))).1, ?_⟩
  exact ((c4_pbkdf2_guard true [5] [6] 1 4).2 (by decide) (by decide)).1.2.mpr rfl

/-- Claim C5: with the destination region in bounds, `openssl_rand_bytes`
returns 1 on success (filling exactly `len` bytes), returns 0 on random
source failure leaving the memory unchanged, and never returns any other
status. -/
theorem c5_rand_status (randOk : Bool) (rnd : Nat → Nat) (mem : List Nat) (ptr len : Nat)
    (hbound : ptr + len ≤ mem.length) :
    (randOk = true → openssl_rand_bytes randOk rnd mem ptr len =
      some (1, mem.take ptr ++ (List.range len).map rnd ++ mem.drop (ptr + len))) ∧
    (randOk = false → openssl_rand_bytes randOk rnd mem ptr len = some (0, mem)) ∧
    ∀ r mem', openssl_rand_bytes randOk rnd mem ptr len = some (r, mem') → r = 1 ∨ r = 0 := by
  have hmap : ((List.range len).map rnd).length = len := by simp
  refine ⟨fun hr => ?_, fun hr => ?_, fun r mem' h => ?_⟩
  · unfold openssl_rand_bytes memWrite
    rw [if_pos hbound, hr, if_pos rfl, if_pos (by rw [hmap]; exact hbound)]
    simp [hmap]
  · unfold openssl_rand_bytes
    rw [if_pos hbound, hr]
    simp
  · unfold openssl_rand_bytes memWrite at h
    rw [if_pos hbound] at h
    rcases randOk with _ | _
    · simp at h
      omega
    · rw [if_pos rfl, if_pos (by rw [hmap]; exact hbound)] at h
      simp at h
      omega

/-- Witness for C5 at concrete inputs. -/
theorem c5_rand_status_witness :
    openssl_rand_bytes true (fun i => i + 7) [9, 9, 9, 9] 1 2 = some (1, [9, 7, 8, 9]) := by
  have h := (c5_rand_status true (fun i => i + 7) [9, 9, 9, 9] 1 2 (by decide)).1 rfl
  rw [h]
  rfl

set_option maxRecDepth 100000 in
/-- Counterexample for claim C6: changing the password does not always change
the derived key.  PBKDF2-HMAC pre-hashes passwords longer than the HMAC block
size, so a 65-byte password and its 32-byte SHA-256 digest derive identical
key material with all other inputs fixed. -/
theorem c6_password_collision :
    List.replicate 65 97 ≠ sha256 (List.replicate 65 97) ∧
    pbkdf2_hmac_sha256 true (List.replicate 65 97) [1, 2, 3, 4] 1 4 =
      pbkdf2_hmac_sha256 true (sha256 (List.replicate 65 97)) [1, 2, 3, 4] 1 4 := by
  constructor
  · intro h
    have hl := congrArg List.length h
    rw [sha256_length] at hl
    simp at hl
  · decide

/-- Claim C6 (amended): `DeriveKeyPBKDF2` is deterministic — two calls with
identical password, salt, iterations, destination length and hash width
produce identical results (the embedding is a pure function of exactly these
inputs) — but a changed input does not always change the output. -/
theorem c6_pbkdf2_deterministic (primOk : Bool) (p1 s1 p2 s2 : List Nat) (i1 o1 i2 o2 : Int)
    (hp : p1 = p2) (hs : s1 = s2) (hi : i1 = i2) (ho : o1 = o2) :
    pbkdf2_hmac_sha256 primOk p1 s1 i1 o1 = pbkdf2_hmac_sha256 primOk p2 s2 i2 o2 ∧
    pbkdf2_hmac_sha512 primOk p1 s1 i1 o1 = pbkdf2_hmac_sha512 primOk p2 s2 i2 o2 := by
  subst hp hs hi ho
  exact ⟨rfl, rfl⟩

/-- Witness for the amended C6 at concrete inputs. -/
theorem c6_pbkdf2_deterministic_witness :
    pbkdf2_hmac_sha256 true [1] [2] 1 4 = pbkdf2_hmac_sha256 true [1] [2] 1 4 :=
  (c6_pbkdf2_deterministic true [1] [2] [1] [2] 1 4 1 4 rfl rfl rfl rfl).1

/-- Claim C1 fails on the code: no exported operation validates offsets plus
lengths against the real memory size.  With an 8-byte memory,
`openssl_rand_bytes` at offset 4 with length 8 hands the out-of-range region
straight to the primitive (undefined behaviour, `none`) instead of returning
an invalid-parameter status, and `aes_256_gcm_encrypt` dereferences a 32-byte
key region that exceeds the memory instead of failing with `-1`. -/
theorem c1_no_bounds_check :
    openssl_rand_bytes true (fun _ => 0) (List.replicate 8 0) 4 8 = none ∧
    aes_256_gcm_encrypt toyGCM evpOk (List.replicate 8 0) 0 0 0 0 0 0 0 0 0 = none := by
  constructor
  · rfl
  · rfl

theorem aes_256_gcm_encrypt_run {P : GCMPrim} {mem key iv aad plaintext mem1 mem2 : List Nat}
    {kp ivp ivl ap al pp pl cp tp : Nat}
    (hkey : memRead mem kp 32 = some key)
    (hiv : memRead mem ivp ivl = some iv)
    (haad : (if ap ≠ 0 ∧ 0 < al then memRead mem ap al else some []) = some aad)
    (hpt : memRead mem pp pl = some plaintext)
    (hw1 : memWrite mem cp (List.zipWith Nat.xor plaintext (P.ks key iv pl)) = some mem1)
    (hw2 : memWrite mem1 tp
      (P.tagFn key iv aad (List.zipWith Nat.xor plaintext (P.ks key iv pl))) = some mem2) :
    aes_256_gcm_encrypt P evpOk mem kp ivp ivl ap al pp pl cp tp = some ((pl : Int), mem2, 1) := by
  unfold aes_256_gcm_encrypt
  simp only [hkey, hiv, haad, hpt, hw1, hw2, Option.some_bind]
  simp [evpOk]

theorem aes_256_gcm_decrypt_run {P : GCMPrim} {mem key iv aad ct tag mem1 : List Nat}
    {kp ivp ivl ap al cp cl tp ptp : Nat}
    (hkey : memRead mem kp 32 = some key)
    (hiv : memRead mem ivp ivl = some iv)
    (haad : (if ap ≠ 0 ∧ 0 < al then memRead mem ap al else some []) = some aad)
    (hct : memRead mem cp cl = some ct)
    (hw : memWrite mem ptp (List.zipWith Nat.xor ct (P.ks key iv cl)) = some mem1)
    (htag : memRead mem1 tp 16 = some tag) :
    aes_256_gcm_decrypt P evpOk mem kp ivp ivl ap al cp cl tp ptp =
      if tag = P.tagFn key iv aad ct then some ((cl : Int), mem1, 1)
      else some (-1, mem1, 1) := by
  unfold aes_256_gcm_decrypt
  simp only [hkey, hiv, haad, hct, hw, htag, Option.some_bind]
  by_cases htg : tag = P.tagFn key iv aad ct <;> simp [evpOk, htg]

theorem aes_256_gcm_encrypt_cases {P : GCMPrim} {o : EVPOutcome} {mem : List Nat}
    {kp ivp ivl ap al pp pl cp tp : Nat} {r : Int} {m : List Nat} {f : Nat}
    (h : aes_256_gcm_encrypt P o mem kp ivp ivl ap al pp pl cp tp = some (r, m, f)) :
    (f = if o.ctxNew = true then 1 else 0) ∧
    (r = -1 ∨ (r = (pl : Int) ∧ ∃ tg : List Nat, tg.length = 16 ∧ memRead m tp 16 = some tg)) ∧
    ((o.init1 = false ∨ o.setIvLen = false ∨ o.init2 = false ∨
        (ap ≠ 0 ∧ 0 < al ∧ o.aadUpd = false) ∨ o.upd = false ∨
        o.fin = false ∨ o.tagCtrl = false) → r = -1) := by
  unfold aes_256_gcm_encrypt at h
  obtain ⟨cn, i1, sil, i2, au, up, fi, tc⟩ := o
  cases cn with
  | false =>
    rw [if_pos rfl] at h
    obtain ⟨h1, h2, h3⟩ : (-1 : Int) = r ∧ mem = m ∧ 0 = f := by simpa using h
    exact ⟨by simp [← h3], Or.inl h1.symm, fun _ => h1.symm⟩
  | true =>
    rw [if_neg (by simp)] at h
    cases i1 with
    | false =>
      rw [if_pos rfl] at h
      obtain ⟨h1, h2, h3⟩ : (-1 : Int) = r ∧ mem = m ∧ 1 = f := by simpa using h
      exact ⟨by simp [← h3], Or.inl h1.symm, fun _ => h1.symm⟩
    | true =>
      rw [if_neg (by simp)] at h
      cases sil with
      | false =>
        rw [if_pos rfl] at h
        obtain ⟨h1, h2, h3⟩ : (-1 : Int) = r ∧ mem = m ∧ 1 = f := by simpa using h
        exact ⟨by simp [← h3], Or.inl h1.symm, fun _ => h1.symm⟩
      | true =>
        rw [if_neg (by simp)] at h
        rw [Option.bind_eq_some] at h
        obtain ⟨key, hkey, h⟩ := h
        rw [Option.bind_eq_some] at h
        obtain ⟨iv, hiv, h⟩ := h
        cases i2 with
        | false =>
          rw [if_pos rfl] at h
          obtain ⟨h1, h2, h3⟩ : (-1 : Int) = r ∧ mem = m ∧ 1 = f := by simpa using h
          exact ⟨by simp [← h3], Or.inl h1.symm, fun _ => h1.symm⟩
        | true =>
          rw [if_neg (by simp)] at h
          rw [Option.bind_eq_some] at h
          obtain ⟨aad, haad, h⟩ := h
          cases au with
          | false =>
            by_cases hpres : ap ≠ 0 ∧ 0 < al
            · rw [if_pos ⟨hpres.1, hpres.2, rfl⟩] at h
              obtain ⟨h1, h2, h3⟩ : (-1 : Int) = r ∧ mem = m ∧ 1 = f := by simpa using h
              exact ⟨by simp [← h3], Or.inl h1.symm, fun _ => h1.symm⟩
            · rw [if_neg (by tauto)] at h
              rw [Option.bind_eq_some] at h
              obtain ⟨plaintext, hpt, h⟩ := h
              cases up with
              | false =>
                rw [if_pos rfl] at h
                obtain ⟨h1, h2, h3⟩ : (-1 : Int) = r ∧ mem = m ∧ 1 = f := by simpa using h
                exact ⟨by simp [← h3], Or.inl h1.symm, fun _ => h1.symm⟩
              | true =>
                rw [if_neg (by simp)] at h
                rw [Option.bind_eq_some] at h
                obtain ⟨mem1, hw1, h⟩ := h
                cases fi with
                | false =>
                  rw [if_pos rfl] at h
                  obtain ⟨h1, h2, h3⟩ : (-1 : Int) = r ∧ mem1 = m ∧ 1 = f := by simpa using h
                  exact ⟨by simp [← h3], Or.inl h1.symm, fun _ => h1.symm⟩
                | true =>
                  rw [if_neg (by simp)] at h
                  cases tc with
                  | false =>
                    rw [if_pos rfl] at h
                    obtain ⟨h1, h2, h3⟩ : (-1 : Int) = r ∧ mem1 = m ∧ 1 = f := by simpa using h
                    exact ⟨by simp [← h3], Or.inl h1.symm, fun _ => h1.symm⟩
                  | true =>
                    rw [if_neg (by simp)] at h
                    rw [Option.bind_eq_some] at h
                    obtain ⟨mem2, hw2, h⟩ := h
                    obtain ⟨h1, h2, h3⟩ : ((pl : Int)) = r ∧ mem2 = m ∧ 1 = f := by simpa using h
                    have htg := memRead_memWrite_self hw2
                    rw [P.tagFn_len] at htg
                    refine ⟨by simp [← h3], Or.inr ⟨h1.symm, _, P.tagFn_len key iv aad _, h2 ▸ htg⟩, ?_⟩
                    intro hbad
                    rcases hbad with h' | h' | h' | h' | h' | h' | h' <;> simp_all
          | true =>
            rw [if_neg (by simp)] at h
            rw [Option.bind_eq_some] at h
            obtain ⟨plaintext, hpt, h⟩ := h
            cases up with
            | false =>
              rw [if_pos rfl] at h
              obtain ⟨h1, h2, h3⟩ : (-1 : Int) = r ∧ mem = m ∧ 1 = f := by simpa using h
              exact ⟨by simp [← h3], Or.inl h1.symm, fun _ => h1.symm⟩
            | true =>
              rw [if_neg (by simp)] at h
              rw [Option.bind_eq_some] at h
              obtain ⟨mem1, hw1, h⟩ := h
              cases fi with
              | false =>
                rw [if_pos rfl] at h
                obtain ⟨h1, h2, h3⟩ : (-1 : Int) = r ∧ mem1 = m ∧ 1 = f := by simpa using h
                exact ⟨by simp [← h3], Or.inl h1.symm, fun _ => h1.symm⟩
              | true =>
                rw [if_neg (by simp)] at h
                cases tc with
                | false =>
                  rw [if_pos rfl] at h
                  obtain ⟨h1, h2, h3⟩ : (-1 : Int) = r ∧ mem1 = m ∧ 1 = f := by simpa using h
                  exact ⟨by simp [← h3], Or.inl h1.symm, fun _ => h1.symm⟩
                | true =>
                  rw [if_neg (by simp)] at h
                  rw [Option.bind_eq_some] at h
                  obtain ⟨mem2, hw2, h⟩ := h
                  obtain ⟨h1, h2, h3⟩ : ((pl : Int)) = r ∧ mem2 = m ∧ 1 = f := by simpa using h
                  have htg := memRead_memWrite_self hw2
                  rw [P.tagFn_len] at htg
                  refine ⟨by simp [← h3], Or.inr ⟨h1.symm, _, P.tagFn_len key iv aad _, h2 ▸ htg⟩, ?_⟩
                  intro hbad
                  rcases hbad with h' | h' | h' | h' | h' | h' | h' <;> simp_all

theorem aes_256_gcm_decrypt_cases {P : GCMPrim} {o : EVPOutcome} {mem : List Nat}
    {kp ivp ivl ap al cp cl tp ptp : Nat} {r : Int} {m : List Nat} {f : Nat}
    (h : aes_256_gcm_decrypt P o mem kp ivp ivl ap al cp cl tp ptp = some (r, m, f)) :
    (f = if o.ctxNew = true then 1 else 0) ∧
    (r = -1 ∨ r = (cl : Int)) ∧
    ((o.init1 = false ∨ o.setIvLen = false ∨ o.init2 = false ∨
        (ap ≠ 0 ∧ 0 < al ∧ o.aadUpd = false) ∨ o.upd = false ∨
        o.tagCtrl = false ∨ o.fin = false) → r = -1) := by
  unfold aes_256_gcm_decrypt at h
  obtain ⟨cn, i1, sil, i2, au, up, fi, tc⟩ := o
  cases cn with
  | false =>
    rw [if_pos rfl] at h
    obtain ⟨h1, h2, h3⟩ : (-1 : Int) = r ∧ mem = m ∧ 0 = f := by simpa using h
    exact ⟨by simp [← h3], Or.inl h1.symm, fun _ => h1.symm⟩
  | true =>
    rw [if_neg (by simp)] at h
    cases i1 with
    | false =>
      rw [if_pos rfl] at h
      obtain ⟨h1, h2, h3⟩ : (-1 : Int) = r ∧ mem = m ∧ 1 = f := by simpa using h
      exact ⟨by simp [← h3], Or.inl h1.symm, fun _ => h1.symm⟩
    | true =>
      rw [if_neg (by simp)] at h
      cases sil with
      | false =>
        rw [if_pos rfl] at h
        obtain ⟨h1, h2, h3⟩ : (-1 : Int) = r ∧ mem = m ∧ 1 = f := by simpa using h
        exact ⟨by simp [← h3], Or.inl h1.symm, fun _ => h1.symm⟩
      | true =>
        rw [if_neg (by simp)] at h
        rw [Option.bind_eq_some] at h
        obtain ⟨key, hkey, h⟩ := h
        rw [Option.bind_eq_some] at h
        obtain ⟨iv, hiv, h⟩ := h
        cases i2 with
        | false =>
          rw [if_pos rfl] at h
          obtain ⟨h1, h2, h3⟩ : (-1 : Int) = r ∧ mem = m ∧ 1 = f := by simpa using h
          exact ⟨by simp [← h3], Or.inl h1.symm, fun _ => h1.symm⟩
        | true =>
          rw [if_neg (by simp)] at h
          rw [Option.bind_eq_some] at h
          obtain ⟨aad, haad, h⟩ := h
          cases au with
          | false =>
            by_cases hpres : ap ≠ 0 ∧ 0 < al
            · rw [if_pos ⟨hpres.1, hpres.2, rfl⟩] at h
              obtain ⟨h1, h2, h3⟩ : (-1 : Int) = r ∧ mem = m ∧ 1 = f := by simpa using h
              exact ⟨by simp [← h3], Or.inl h1.symm, fun _ => h1.symm⟩
            · rw [if_neg (by tauto)] at h
              rw [Option.bind_eq_some] at h
              obtain ⟨ct, hct, h⟩ := h
              cases up with
              | false =>
                rw [if_pos rfl] at h
                obtain ⟨h1, h2, h3⟩ : (-1 : Int) = r ∧ mem = m ∧ 1 = f := by simpa using h
                exact ⟨by simp [← h3], Or.inl h1.symm, fun _ => h1.symm⟩
              | true =>
                rw [if_neg (by simp)] at h
                rw [Option.bind_eq_some] at h
                obtain ⟨mem1, hw, h⟩ := h
                rw [Option.bind_eq_some] at h
                obtain ⟨tag, htagv, h⟩ := h
                cases tc with
                | false =>
                  rw [if_pos rfl] at h
                  obtain ⟨h1, h2, h3⟩ : (-1 : Int) = r ∧ mem1 = m ∧ 1 = f := by simpa using h
                  exact ⟨by simp [← h3], Or.inl h1.symm, fun _ => h1.symm⟩
                | true =>
                  rw [if_neg (by simp)] at h
                  by_cases hfin : (fi = false ∨ tag ≠ P.tagFn key iv aad ct)
                  · rw [if_pos (by simpa using hfin)] at h
                    obtain ⟨h1, h2, h3⟩ : (-1 : Int) = r ∧ mem1 = m ∧ 1 = f := by simpa using h
                    exact ⟨by simp [← h3], Or.inl h1.symm, fun _ => h1.symm⟩
                  · rw [if_neg (by simpa using hfin)] at h
                    obtain ⟨h1, h2, h3⟩ : ((cl : Int)) = r ∧ mem1 = m ∧ 1 = f := by simpa using h
                    refine ⟨by simp [← h3], Or.inr h1.symm, ?_⟩
                    intro hbad
                    rcases hbad with h' | h' | h' | h' | h' | h' | h' <;> simp_all
          | true =>
            rw [if_neg (by simp)] at h
            rw [Option.bind_eq_some] at h
            obtain ⟨ct, hct, h⟩ := h
            cases up with
            | false =>
              rw [if_pos rfl] at h
              obtain ⟨h1, h2, h3⟩ : (-1 : Int) = r ∧ mem = m ∧ 1 = f := by simpa using h
              exact ⟨by simp [← h3], Or.inl h1.symm, fun _ => h1.symm⟩
            | true =>
              rw [if_neg (by simp)] at h
              rw [Option.bind_eq_some] at h
              obtain ⟨mem1, hw, h⟩ := h
              rw [Option.bind_eq_some] at h
              obtain ⟨tag, htagv, h⟩ := h
              cases tc with
              | false =>
                rw [if_pos rfl] at h
                obtain ⟨h1, h2, h3⟩ : (-1 : Int) = r ∧ mem1 = m ∧ 1 = f := by simpa using h
                exact ⟨by simp [← h3], Or.inl h1.symm, fun _ => h1.symm⟩
              | true =>
                rw [if_neg (by simp)] at h
                by_cases hfin : (fi = false ∨ tag ≠ P.tagFn key iv aad ct)
                · rw [if_pos (by simpa using hfin)] at h
                  obtain ⟨h1, h2, h3⟩ : (-1 : Int) = r ∧ mem1 = m ∧ 1 = f := by simpa using h
                  exact ⟨by simp [← h3], Or.inl h1.symm, fun _ => h1.symm⟩
                · rw [if_neg (by simpa using hfin)] at h
                  obtain ⟨h1, h2, h3⟩ : ((cl : Int)) = r ∧ mem1 = m ∧ 1 = f := by simpa using h
                  refine ⟨by simp [← h3], Or.inr h1.symm, ?_⟩
                  intro hbad
                  rcases hbad with h' | h' | h' | h' | h' | h' | h' <;> simp_all

theorem Disj_symm {a la b lb : Nat} (h : Disj a la b lb) : Disj b lb a la := by
  unfold Disj at h ⊢
  omega

theorem zipWith_xor_cancel (pt ks : List Nat) (h : ks.length = pt.length) :
    List.zipWith Nat.xor (List.zipWith Nat.xor pt ks) ks = pt := by
  induction pt generalizing ks with
  | nil => simp
  | cons p pt ih =>
      cases ks with
      | nil => simp at h
      | cons k ks =>
          simp only [List.zipWith_cons_cons]
          rw [show Nat.xor (Nat.xor p k) k = p from Nat.xor_cancel_right k p,
            ih ks (by simpa using h)]

theorem flipBit_length (l : List Nat) (i b : Nat) : (flipBit l i b).length = l.length := by
  simp [flipBit]

theorem flipBit_ne {l : List Nat} {i : Nat} (b : Nat) (hi : i < l.length) : flipBit l i b ≠ l := by
  intro hEq
  have h1 : (flipBit l i b)[i]? = l[i]? := by rw [hEq]
  rw [flipBit, List.getElem?_set_self hi, List.getElem?_eq_getElem hi] at h1
  have hgd : l.getD i 0 = l[i] := by simp [List.getElem?_eq_getElem hi]
  rw [hgd] at h1
  have h2 : l[i] ^^^ 2 ^ b = l[i] := Option.some_inj.mp h1
  have h3 : l[i] ^^^ 2 ^ b = l[i] ^^^ 0 := by rw [Nat.xor_zero]; exact h2
  have h4 : 2 ^ b = 0 := Nat.xor_right_inj.mp h3
  have := Nat.two_pow_pos b
  omega

theorem xorFold_flipBit {l : List Nat} {i : Nat} (b : Nat) (hi : i < l.length) :
    xorFold (flipBit l i b) = xorFold l ^^^ 2 ^ b := by
  induction l generalizing i with
  | nil => simp at hi
  | cons x xs ih =>
      cases i with
      | zero =>
          show xorFold ((x ^^^ 2 ^ b) :: xs) = (x ^^^ xorFold xs) ^^^ 2 ^ b
          show (x ^^^ 2 ^ b) ^^^ xorFold xs = (x ^^^ xorFold xs) ^^^ 2 ^ b
          rw [Nat.xor_assoc, Nat.xor_comm (2 ^ b) (xorFold xs), ← Nat.xor_assoc]
      | succ i =>
          have hi' : i < xs.length := by simpa using hi
          show xorFold (x :: flipBit xs i b) = (x ^^^ xorFold xs) ^^^ 2 ^ b
          show x ^^^ xorFold (flipBit xs i b) = (x ^^^ xorFold xs) ^^^ 2 ^ b
          rw [ih hi', ← Nat.xor_assoc]

theorem toyGCM_flipSensitive : FlipSensitive toyGCM := by
  intro key iv aad ct i b hb
  constructor
  · intro hi hEq
    have hhead : xorFold (flipBit aad i b) ^^^ xorFold ct = xorFold aad ^^^ xorFold ct := by
      have := congrArg (fun l : List Nat => l.headD 0) hEq
      simpa [toyGCM] using this
    rw [xorFold_flipBit b hi] at hhead
    have h2 : xorFold aad ^^^ 2 ^ b = xorFold aad := Nat.xor_left_inj.mp hhead
    have h3 : xorFold aad ^^^ 2 ^ b = xorFold aad ^^^ 0 := by rw [Nat.xor_zero]; exact h2
    have h4 : 2 ^ b = 0 := Nat.xor_right_inj.mp h3
    have := Nat.two_pow_pos b
    omega
  · intro hi hEq
    have hhead : xorFold aad ^^^ xorFold (flipBit ct i b) = xorFold aad ^^^ xorFold ct := by
      have := congrArg (fun l : List Nat => l.headD 0) hEq
      simpa [toyGCM] using this
    rw [xorFold_flipBit b hi] at hhead
    have h2 : xorFold ct ^^^ 2 ^ b = xorFold ct := Nat.xor_right_inj.mp hhead
    have h3 : xorFold ct ^^^ 2 ^ b = xorFold ct ^^^ 0 := by rw [Nat.xor_zero]; exact h2
    have h4 : 2 ^ b = 0 := Nat.xor_right_inj.mp h3
    have := Nat.two_pow_pos b
    omega

/-- Claim C8: every successful `aes_256_gcm_encrypt` call returns a
non-negative ciphertext length equal to `plaintext_len` with a 16-byte tag
written to the tag view, and every initialization, IV-length-configuration,
update or finalization failure returns `-1`. -/
theorem c8_encrypt_result (P : GCMPrim) (o : EVPOutcome) (mem : List Nat)
    (kp ivp ivl ap al pp pl cp tp : Nat) (r : Int) (m : List Nat) (f : Nat)
    (h : aes_256_gcm_encrypt P o mem kp ivp ivl ap al pp pl cp tp = some (r, m, f)) :
    (r ≠ -1 → r = (pl : Int) ∧ 0 ≤ r ∧
      ∃ tg : List Nat, tg.length = 16 ∧ memRead m tp 16 = some tg) ∧
    ((o.init1 = false ∨ o.setIvLen = false ∨ o.init2 = false ∨
        (ap ≠ 0 ∧ 0 < al ∧ o.aadUpd = false) ∨ o.upd = false ∨
        o.fin = false ∨ o.tagCtrl = false) → r = -1) := by
  obtain ⟨hf, hr, hfail⟩ := aes_256_gcm_encrypt_cases h
  refine ⟨fun hne => ?_, hfail⟩
  rcases hr with h1 | ⟨h1, tg, hlen, hread⟩
  · exact absurd h1 hne
  · exact ⟨h1, by omega, tg, hlen, hread⟩

/-- Claim C9: in both AEAD operations the cipher context is freed exactly
once on every path on which it was created, and not at all when its
allocation failed. -/
theorem c9_ctx_released :
    (∀ (P : GCMPrim) (o : EVPOutcome) (mem : List Nat) (kp ivp ivl ap al pp pl cp tp : Nat)
        (r : Int) (m : List Nat) (f : Nat),
      aes_256_gcm_encrypt P o mem kp ivp ivl ap al pp pl cp tp = some (r, m, f) →
        f = if o.ctxNew = true then 1 else 0) ∧
    (∀ (P : GCMPrim) (o : EVPOutcome) (mem : List Nat) (kp ivp ivl ap al cp cl tp ptp : Nat)
        (r : Int) (m : List Nat) (f : Nat),
      aes_256_gcm_decrypt P o mem kp ivp ivl ap al cp cl tp ptp = some (r, m, f) →
        f = if o.ctxNew = true then 1 else 0) :=
  ⟨fun _ _ _ _ _ _ _ _ _ _ _ _ _ _ _ h => (aes_256_gcm_encrypt_cases h).1,
   fun _ _ _ _ _ _ _ _ _ _ _ _ _ _ _ h => (aes_256_gcm_decrypt_cases h).1⟩

/-- Claim C10: when `aes_256_gcm_decrypt` fails only at tag verification, the
`ciphertext_len` decrypted candidate bytes have already been written into the
plaintext output view before the call returns `-1`. -/
theorem c10_decrypt_writes_before_auth_fail (P : GCMPrim)
    (mem key iv aad ct tag : List Nat) (kp ivp ivl ap al cp cl tp ptp : Nat)
    (hkey : memRead mem kp 32 = some key)
    (hiv : memRead mem ivp ivl = some iv)
    (haad : (if ap ≠ 0 ∧ 0 < al then memRead mem ap al else some []) = some aad)
    (hct : memRead mem cp cl = some ct)
    (hob : ptp + cl ≤ mem.length)
    (htag : memRead mem tp 16 = some tag)
    (hd_to : Disj tp 16 ptp cl)
    (hne : tag ≠ P.tagFn key iv aad ct) :
    ∃ mem1, aes_256_gcm_decrypt P evpOk mem kp ivp ivl ap al cp cl tp ptp =
        some (-1, mem1, 1) ∧
      memRead mem1 ptp cl = some (List.zipWith Nat.xor ct (P.ks key iv cl)) := by
  have hlen : (List.zipWith Nat.xor ct (P.ks key iv cl)).length = cl := by
    rw [List.length_zipWith, P.ks_len, memRead_length hct, Nat.min_self]
  obtain ⟨mem1, hw⟩ : ∃ m1,
      memWrite mem ptp (List.zipWith Nat.xor ct (P.ks key iv cl)) = some m1 := by
    unfold memWrite
    rw [if_pos (by rw [hlen]; exact hob)]
    exact ⟨_, rfl⟩
  have htag1 : memRead mem1 tp 16 = some tag := by
    rw [memRead_memWrite_disj hw (by rw [hlen]; exact hd_to)]
    exact htag
  have hrun := aes_256_gcm_decrypt_run hkey hiv haad hct hw htag1
  rw [if_neg hne] at hrun
  refine ⟨mem1, hrun, ?_⟩
  have hself := memRead_memWrite_self hw
  rwa [hlen] at hself

/-- Claim C2: for every 32-byte key, IV, associated data and plaintext laid
out in memory with the output regions in bounds and disjoint from the input
regions, a successful `aes_256_gcm_encrypt` followed by `aes_256_gcm_decrypt`
of the produced ciphertext and tag succeeds, returns the plaintext length,
and writes exactly the original plaintext bytes into the output view. -/
theorem c2_aead_roundtrip (P : GCMPrim) (mem key iv aad pt : List Nat)
    (kp ivp ivl ap al pp pl cp tp op : Nat)
    (hkey : memRead mem kp 32 = some key)
    (hiv : memRead mem ivp ivl = some iv)
    (haad : (if ap ≠ 0 ∧ 0 < al then memRead mem ap al else some []) = some aad)
    (hpt : memRead mem pp pl = some pt)
    (hcb : cp + pl ≤ mem.length) (htb : tp + 16 ≤ mem.length) (hob : op + pl ≤ mem.length)
    (hd_kc : Disj kp 32 cp pl) (hd_kt : Disj kp 32 tp 16)
    (hd_vc : Disj ivp ivl cp pl) (hd_vt : Disj ivp ivl tp 16)
    (hd_ac : Disj ap al cp pl) (hd_at : Disj ap al tp 16)
    (hd_ct : Disj cp pl tp 16) (hd_to : Disj tp 16 op pl) :
    ∃ mem2 mem3 : List Nat,
      aes_256_gcm_encrypt P evpOk mem kp ivp ivl ap al pp pl cp tp =
        some ((pl : Int), mem2, 1) ∧
      aes_256_gcm_decrypt P evpOk mem2 kp ivp ivl ap al cp pl tp op =
        some ((pl : Int), mem3, 1) ∧
      memRead mem3 op pl = some pt := by
  have hptlen : pt.length = pl := memRead_length hpt
  have hkslen : (P.ks key iv pl).length = pl := P.ks_len key iv pl
  have hctlen : (List.zipWith Nat.xor pt (P.ks key iv pl)).length = pl := by
    rw [List.length_zipWith, hptlen, hkslen, Nat.min_self]
  obtain ⟨mem1, hw1⟩ : ∃ m1,
      memWrite mem cp (List.zipWith Nat.xor pt (P.ks key iv pl)) = some m1 := by
    unfold memWrite
    rw [if_pos (by rw [hctlen]; exact hcb)]
    exact ⟨_, rfl⟩
  have hm1len : mem1.length = mem.length := memWrite_length hw1
  obtain ⟨mem2, hw2⟩ : ∃ m2, memWrite mem1 tp
      (P.tagFn key iv aad (List.zipWith Nat.xor pt (P.ks key iv pl))) = some m2 := by
    unfold memWrite
    rw [if_pos (by rw [P.tagFn_len, hm1len]; exact htb)]
    exact ⟨_, rfl⟩
  have henc := aes_256_gcm_encrypt_run hkey hiv haad hpt hw1 hw2
  have hDw1 : ∀ {ro n : Nat}, Disj ro n cp pl → memRead mem1 ro n = memRead mem ro n :=
    fun hd => memRead_memWrite_disj hw1 (by rw [hctlen]; exact hd)
  have hDw2 : ∀ {ro n : Nat}, Disj ro n tp 16 → memRead mem2 ro n = memRead mem1 ro n :=
    fun hd => memRead_memWrite_disj hw2 (by rw [P.tagFn_len]; exact hd)
  have hkey2 : memRead mem2 kp 32 = some key := by rw [hDw2 hd_kt, hDw1 hd_kc]; exact hkey
  have hiv2 : memRead mem2 ivp ivl = some iv := by rw [hDw2 hd_vt, hDw1 hd_vc]; exact hiv
  have haad2 : (if ap ≠ 0 ∧ 0 < al then memRead mem2 ap al else some []) = some aad := by
    by_cases hpres : ap ≠ 0 ∧ 0 < al
    · rw [if_pos hpres, hDw2 hd_at, hDw1 hd_ac]
      rw [if_pos hpres] at haad
      exact haad
    · rw [if_neg hpres]
      rw [if_neg hpres] at haad
      exact haad
  have hct2 : memRead mem2 cp pl = some (List.zipWith Nat.xor pt (P.ks key iv pl)) := by
    rw [hDw2 hd_ct]
    have hself := memRead_memWrite_self hw1
    rwa [hctlen] at hself
  have hdlen : (List.zipWith Nat.xor (List.zipWith Nat.xor pt (P.ks key iv pl))
      (P.ks key iv pl)).length = pl := by
    rw [List.length_zipWith, hctlen, hkslen, Nat.min_self]
  obtain ⟨mem3, hw3⟩ : ∃ m3, memWrite mem2 op
      (List.zipWith Nat.xor (List.zipWith Nat.xor pt (P.ks key iv pl))
        (P.ks key iv pl)) = some m3 := by
    unfold memWrite
    rw [if_pos (by rw [hdlen, memWrite_length hw2, hm1len]; exact hob)]
    exact ⟨_, rfl⟩
  have htag2 : memRead mem2 tp 16 =
      some (P.tagFn key iv aad (List.zipWith Nat.xor pt (P.ks key iv pl))) := by
    have hself := memRead_memWrite_self hw2
    rwa [P.tagFn_len] at hself
  have htag3 : memRead mem3 tp 16 =
      some (P.tagFn key iv aad (List.zipWith Nat.xor pt (P.ks key iv pl))) := by
    rw [memRead_memWrite_disj hw3 (by rw [hdlen]; exact hd_to)]
    exact htag2
  have hrun := aes_256_gcm_decrypt_run hkey2 hiv2 haad2 hct2 hw3 htag3
  rw [if_pos rfl] at hrun
  refine ⟨mem2, mem3, henc, hrun, ?_⟩
  have hself := memRead_memWrite_self hw3
  rw [hdlen] at hself
  rwa [zipWith_xor_cancel pt (P.ks key iv pl) (by rw [hkslen, hptlen])] at hself

theorem aead_encrypt_setup (P : GCMPrim) (mem key iv aad pt : List Nat)
    (kp ivp ivl ap al pp pl cp tp : Nat)
    (hkey : memRead mem kp 32 = some key)
    (hiv : memRead mem ivp ivl = some iv)
    (haad : (if ap ≠ 0 ∧ 0 < al then memRead mem ap al else some []) = some aad)
    (hpt : memRead mem pp pl = some pt)
    (hcb : cp + pl ≤ mem.length) (htb : tp + 16 ≤ mem.length)
    (hd_kc : Disj kp 32 cp pl) (hd_kt : Disj kp 32 tp 16)
    (hd_vc : Disj ivp ivl cp pl) (hd_vt : Disj ivp ivl tp 16)
    (hd_ac : Disj ap al cp pl) (hd_at : Disj ap al tp 16)
    (hd_ct : Disj cp pl tp 16) :
    ∃ mem2 : List Nat, mem2.length = mem.length ∧
      aes_256_gcm_encrypt P evpOk mem kp ivp ivl ap al pp pl cp tp =
        some ((pl : Int), mem2, 1) ∧
      memRead mem2 kp 32 = some key ∧
      memRead mem2 ivp ivl = some iv ∧
      (if ap ≠ 0 ∧ 0 < al then memRead mem2 ap al else some []) = some aad ∧
      memRead mem2 cp pl = some (List.zipWith Nat.xor pt (P.ks key iv pl)) ∧
      memRead mem2 tp 16 =
        some (P.tagFn key iv aad (List.zipWith Nat.xor pt (P.ks key iv pl))) := by
  have hptlen : pt.length = pl := memRead_length hpt
  have hkslen : (P.ks key iv pl).length = pl := P.ks_len key iv pl
  have hctlen : (List.zipWith Nat.xor pt (P.ks key iv pl)).length = pl := by
    rw [List.length_zipWith, hptlen, hkslen, Nat.min_self]
  obtain ⟨mem1, hw1⟩ : ∃ m1,
      memWrite mem cp (List.zipWith Nat.xor pt (P.ks key iv pl)) = some m1 := by
    unfold memWrite
    rw [if_pos (by rw [hctlen]; exact hcb)]
    exact ⟨_, rfl⟩
  have hm1len : mem1.length = mem.length := memWrite_length hw1
  obtain ⟨mem2, hw2⟩ : ∃ m2, memWrite mem1 tp
      (P.tagFn key iv aad (List.zipWith Nat.xor pt (P.ks key iv pl))) = some m2 := by
    unfold memWrite
    rw [if_pos (by rw [P.tagFn_len, hm1len]; exact htb)]
    exact ⟨_, rfl⟩
  have henc := aes_256_gcm_encrypt_run hkey hiv haad hpt hw1 hw2
  have hDw1 : ∀ {ro n : Nat}, Disj ro n cp pl → memRead mem1 ro n = memRead mem ro n :=
    fun hd => memRead_memWrite_disj hw1 (by rw [hctlen]; exact hd)
  have hDw2 : ∀ {ro n : Nat}, Disj ro n tp 16 → memRead mem2 ro n = memRead mem1 ro n :=
    fun hd => memRead_memWrite_disj hw2 (by rw [P.tagFn_len]; exact hd)
  refine ⟨mem2, by rw [memWrite_length hw2, hm1len], henc, ?_, ?_, ?_, ?_, ?_⟩
  · rw [hDw2 hd_kt, hDw1 hd_kc]; exact hkey
  · rw [hDw2 hd_vt, hDw1 hd_vc]; exact hiv
  · by_cases hpres : ap ≠ 0 ∧ 0 < al
    · rw [if_pos hpres, hDw2 hd_at, hDw1 hd_ac]
      rw [if_pos hpres] at haad
      exact haad
    · rw [if_neg hpres]
      rw [if_neg hpres] at haad
      exact haad
  · rw [hDw2 hd_ct]
    have hself := memRead_memWrite_self hw1
    rwa [hctlen] at hself
  · have hself := memRead_memWrite_self hw2
    rwa [P.tagFn_len] at hself

theorem aead_decrypt_auth_fail (P : GCMPrim) (memF key iv aadX ctX tagX : List Nat)
    (kp ivp ivl ap al cp pl tp op : Nat)
    (hkeyF : memRead memF kp 32 = some key)
    (hivF : memRead memF ivp ivl = some iv)
    (haadF : (if ap ≠ 0 ∧ 0 < al then memRead memF ap al else some []) = some aadX)
    (hctF : memRead memF cp pl = some ctX)
    (hob : op + pl ≤ memF.length)
    (htagF : memRead memF tp 16 = some tagX)
    (hd_to : Disj tp 16 op pl)
    (hne : tagX ≠ P.tagFn key iv aadX ctX) :
    ∃ memX, aes_256_gcm_decrypt P evpOk memF kp ivp ivl ap al cp pl tp op =
      some (-1, memX, 1) := by
  have hlen : (List.zipWith Nat.xor ctX (P.ks key iv pl)).length = pl := by
    rw [List.length_zipWith, P.ks_len, memRead_length hctF, Nat.min_self]
  obtain ⟨memX, hw⟩ : ∃ mX,
      memWrite memF op (List.zipWith Nat.xor ctX (P.ks key iv pl)) = some mX := by
    unfold memWrite
    rw [if_pos (by rw [hlen]; exact hob)]
    exact ⟨_, rfl⟩
  have htagX : memRead memX tp 16 = some tagX := by
    rw [memRead_memWrite_disj hw (by rw [hlen]; exact hd_to)]
    exact htagF
  have hrun := aes_256_gcm_decrypt_run hkeyF hivF haadF hctF hw htagX
  rw [if_neg hne] at hrun
  exact ⟨memX, hrun⟩

/-- Claim C3: after a successful encryption, flipping any single bit of the
ciphertext, of the 16-byte tag, or of the associated data in memory makes
`aes_256_gcm_decrypt` (for a flip-sensitive primitive) return `-1`, and every
decryption failure is signalled by that same return value `-1` — the only
other possible return value is the success length. -/
theorem c3_bitflip_auth_failure (P : GCMPrim) (hsens : FlipSensitive P)
    (mem key iv aad pt ct tg : List Nat) (kp ivp ivl ap al pp pl cp tp op : Nat)
    (hctdef : ct = List.zipWith Nat.xor pt (P.ks key iv pl))
    (htgdef : tg = P.tagFn key iv aad ct)
    (hkey : memRead mem kp 32 = some key)
    (hiv : memRead mem ivp ivl = some iv)
    (haad : (if ap ≠ 0 ∧ 0 < al then memRead mem ap al else some []) = some aad)
    (hpt : memRead mem pp pl = some pt)
    (hcb : cp + pl ≤ mem.length) (htb : tp + 16 ≤ mem.length) (hob : op + pl ≤ mem.length)
    (hd_kc : Disj kp 32 cp pl) (hd_kt : Disj kp 32 tp 16)
    (hd_vc : Disj ivp ivl cp pl) (hd_vt : Disj ivp ivl tp 16)
    (hd_ac : Disj ap al cp pl) (hd_at : Disj ap al tp 16)
    (hd_ka : Disj kp 32 ap al) (hd_va : Disj ivp ivl ap al)
    (hd_ct : Disj cp pl tp 16) (hd_to : Disj tp 16 op pl) :
    ∃ mem2 : List Nat,
      aes_256_gcm_encrypt P evpOk mem kp ivp ivl ap al pp pl cp tp =
        some ((pl : Int), mem2, 1) ∧
      (∀ i b : Nat, i < pl → b < 8 → ∀ memF : List Nat,
        memWrite mem2 cp (flipBit ct i b) = some memF →
        ∃ memX, aes_256_gcm_decrypt P evpOk memF kp ivp ivl ap al cp pl tp op =
          some (-1, memX, 1)) ∧
      (∀ i b : Nat, i < 16 → b < 8 → ∀ memF : List Nat,
        memWrite mem2 tp (flipBit tg i b) = some memF →
        ∃ memX, aes_256_gcm_decrypt P evpOk memF kp ivp ivl ap al cp pl tp op =
          some (-1, memX, 1)) ∧
      ((ap ≠ 0 ∧ 0 < al) → ∀ i b : Nat, i < al → b < 8 → ∀ memF : List Nat,
        memWrite mem2 ap (flipBit aad i b) = some memF →
        ∃ memX, aes_256_gcm_decrypt P evpOk memF kp ivp ivl ap al cp pl tp op =
          some (-1, memX, 1)) ∧
      (∀ (o : EVPOutcome) (mem0 : List Nat) (kq ivq ivlq aq alq cq clq tq pq : Nat)
          (r : Int) (m : List Nat) (f : Nat),
        aes_256_gcm_decrypt P o mem0 kq ivq ivlq aq alq cq clq tq pq = some (r, m, f) →
          r = -1 ∨ r = (clq : Int)) := by
  obtain ⟨mem2, hm2len, henc, hkey2, hiv2, haad2, hct2, htag2⟩ :=
    aead_encrypt_setup P mem key iv aad pt kp ivp ivl ap al pp pl cp tp
      hkey hiv haad hpt hcb htb hd_kc hd_kt hd_vc hd_vt hd_ac hd_at hd_ct
  rw [← hctdef] at hct2
  rw [← hctdef, ← htgdef] at htag2
  have hctlen : ct.length = pl := by
    rw [hctdef, List.length_zipWith, memRead_length hpt, P.ks_len, Nat.min_self]
  have htglen : tg.length = 16 := by rw [htgdef, P.tagFn_len]
  refine ⟨mem2, henc, ?_, ?_, ?_, ?_⟩
  · intro i b hi hb memF hwF
    have hflen : (flipBit ct i b).length = pl := by rw [flipBit_length, hctlen]
    have hDF : ∀ {ro n : Nat}, Disj ro n cp pl → memRead memF ro n = memRead mem2 ro n :=
      fun hd => memRead_memWrite_disj hwF (by rw [hflen]; exact hd)
    have haadF : (if ap ≠ 0 ∧ 0 < al then memRead memF ap al else some []) = some aad := by
      by_cases hpres : ap ≠ 0 ∧ 0 < al
      · rw [if_pos hpres, hDF hd_ac]
        rw [if_pos hpres] at haad2
        exact haad2
      · rw [if_neg hpres]
        rw [if_neg hpres] at haad2
        exact haad2
    have hctF : memRead memF cp pl = some (flipBit ct i b) := by
      have hself := memRead_memWrite_self hwF
      rwa [hflen] at hself
    refine aead_decrypt_auth_fail P memF key iv aad (flipBit ct i b) tg kp ivp ivl ap al
      cp pl tp op (by rw [hDF hd_kc]; exact hkey2) (by rw [hDF hd_vc]; exact hiv2)
      haadF hctF (by rw [memWrite_length hwF, hm2len]; exact hob)
      (by rw [hDF (Disj_symm hd_ct)]; exact htag2) hd_to ?_
    rw [htgdef]
    intro hEq
    exact ((hsens key iv aad ct i b hb).2 (by rw [hctlen]; exact hi)) hEq.symm
  · intro i b hi hb memF hwF
    have hflen : (flipBit tg i b).length = 16 := by rw [flipBit_length, htglen]
    have hDF : ∀ {ro n : Nat}, Disj ro n tp 16 → memRead memF ro n = memRead mem2 ro n :=
      fun hd => memRead_memWrite_disj hwF (by rw [hflen]; exact hd)
    have haadF : (if ap ≠ 0 ∧ 0 < al then memRead memF ap al else some []) = some aad := by
      by_cases hpres : ap ≠ 0 ∧ 0 < al
      · rw [if_pos hpres, hDF hd_at]
        rw [if_pos hpres] at haad2
        exact haad2
      · rw [if_neg hpres]
        rw [if_neg hpres] at haad2
        exact haad2
    have htagF : memRead memF tp 16 = some (flipBit tg i b) := by
      have hself := memRead_memWrite_self hwF
      rwa [hflen] at hself
    refine aead_decrypt_auth_fail P memF key iv aad ct (flipBit tg i b) kp ivp ivl ap al
      cp pl tp op (by rw [hDF hd_kt]; exact hkey2) (by rw [hDF hd_vt]; exact hiv2)
      haadF (by rw [hDF hd_ct]; exact hct2)
      (by rw [memWrite_length hwF, hm2len]; exact hob) htagF hd_to ?_
    rw [← htgdef]
    exact flipBit_ne b (by rw [htglen]; exact hi)
  · intro hpres i b hi hb memF hwF
    have halen : aad.length = al := by
      rw [if_pos hpres] at haad
      exact memRead_length haad
    have hflen : (flipBit aad i b).length = al := by rw [flipBit_length, halen]
    have hDF : ∀ {ro n : Nat}, Disj ro n ap al → memRead memF ro n = memRead mem2 ro n :=
      fun hd => memRead_memWrite_disj hwF (by rw [hflen]; exact hd)
    have haadF : (if ap ≠ 0 ∧ 0 < al then memRead memF ap al else some []) =
        some (flipBit aad i b) := by
      rw [if_pos hpres]
      have hself := memRead_memWrite_self hwF
      rwa [hflen] at hself
    refine aead_decrypt_auth_fail P memF key iv (flipBit aad i b) ct tg kp ivp ivl ap al
      cp pl tp op (by rw [hDF hd_ka]; exact hkey2) (by rw [hDF hd_va]; exact hiv2)
      haadF (by rw [hDF (Disj_symm hd_ac)]; exact hct2)
      (by rw [memWrite_length hwF, hm2len]; exact hob)
      (by rw [hDF (Disj_symm hd_at)]; exact htag2) hd_to ?_
    rw [htgdef]
    intro hEq
    exact ((hsens key iv aad ct i b hb).1 (by rw [halen]; exact hi)) hEq.symm
  · intro o mem0 kq ivq ivlq aq alq cq clq tq pq r m f h
    exact (aes_256_gcm_decrypt_cases h).2.1

/-- Witness for C2 at a concrete memory layout. -/
theorem c2_aead_roundtrip_witness :
    ∃ mem2 mem3 : List Nat,
      aes_256_gcm_encrypt toyGCM evpOk memc 0 32 1 33 1 34 2 36 38 =
        some (((2 : Nat) : Int), mem2, 1) ∧
      aes_256_gcm_decrypt toyGCM evpOk mem2 0 32 1 33 1 36 2 38 54 =
        some (((2 : Nat) : Int), mem3, 1) ∧
      memRead mem3 54 2 = some [10, 20] :=
  c2_aead_roundtrip toyGCM memc (List.replicate 32 0) [7] [5] [10, 20]
    0 32 1 33 1 34 2 36 38 54 (by decide) (by decide) (by decide) (by decide)
    (by decide) (by decide) (by decide)
    (by unfold Disj; omega) (by unfold Disj; omega) (by unfold Disj; omega)
    (by unfold Disj; omega) (by unfold Disj; omega) (by unfold Disj; omega)
    (by unfold Disj; omega) (by unfold Disj; omega)

/-- Witness for C3 at a concrete memory layout and the concrete flip-sensitive
primitive `toyGCM`. -/
theorem c3_bitflip_auth_failure_witness :
    ∃ mem2 : List Nat,
      aes_256_gcm_encrypt toyGCM evpOk memc 0 32 1 33 1 34 2 36 38 =
        some (((2 : Nat) : Int), mem2, 1) := by
  obtain ⟨mem2, henc, _, _, _, _⟩ :=
    c3_bitflip_auth_failure toyGCM toyGCM_flipSensitive memc (List.replicate 32 0) [7] [5]
      [10, 20] [10, 20] (27 :: List.replicate 15 0) 0 32 1 33 1 34 2 36 38 54
      (by decide) (by decide) (by decide) (by decide) (by decide) (by decide)
      (by decide) (by decide) (by decide)
      (by unfold Disj; omega) (by unfold Disj; omega) (by unfold Disj; omega)
      (by unfold Disj; omega) (by unfold Disj; omega) (by unfold Disj; omega)
      (by unfold Disj; omega) (by unfold Disj; omega) (by unfold Disj; omega)
      (by unfold Disj; omega)
  exact ⟨mem2, henc⟩

/-- Witness for C8 at a concrete successful encryption. -/
theorem c8_encrypt_result_witness :
    (2 : Int) = ((2 : Nat) : Int) ∧ 0 ≤ (2 : Int) ∧
      ∃ tg : List Nat, tg.length = 16 ∧ memRead mem2c 38 16 = some tg :=
  (c8_encrypt_result toyGCM evpOk memc 0 32 1 33 1 34 2 36 38 2 mem2c 1
    (by decide)).1 (by decide)

/-- Witness for C9: a created context is freed once on the successful
encryption path, and not at all when context allocation fails. -/
theorem c9_ctx_released_witness :
    (1 : Nat) = (if evpOk.ctxNew = true then 1 else 0) ∧
    (0 : Nat) =
      (if (EVPOutcome.mk false true true true true true true true).ctxNew = true
        then 1 else 0) :=
  ⟨c9_ctx_released.1 toyGCM evpOk memc 0 32 1 33 1 34 2 36 38 2 mem2c 1 (by decide),
   c9_ctx_released.2 toyGCM (EVPOutcome.mk false true true true true true true true)
     [] 0 0 0 0 0 0 0 0 0 (-1) [] 0 (by decide)⟩

/-- Witness for C10 at a concrete tag-mismatch decryption. -/
theorem c10_decrypt_writes_before_auth_fail_witness :
    ∃ mem1, aes_256_gcm_decrypt toyGCM evpOk mem10c 0 32 0 0 0 32 2 34 50 =
        some (-1, mem1, 1) ∧
      memRead mem1 50 2 =
        some (List.zipWith Nat.xor [0, 0] (toyGCM.ks (List.replicate 32 0) [] 2)) :=
  c10_decrypt_writes_before_auth_fail toyGCM mem10c (List.replicate 32 0) [] [] [0, 0]
    (List.replicate 16 1) 0 32 0 0 0 32 2 34 50
    (by decide) (by decide) (by decide) (by decide) (by decide) (by decide)
    (by unfold Disj; omega) (by decide)
